import Mathlib

set_option maxRecDepth 16000

/-!
Verification of the dimension-aware vector store and the highlight matching
pipeline of the highlight-search repository.

The embedding follows the Python source:
  * `utils/dimension_vector_search.py` (class `DimensionAwareVectorSearch`):
    vectors are rational-valued lists, the store keeps one insertion-ordered
    association list per supported dimension, a flat metadata map, and a
    durable key/value side (the S3 bucket).  Python floats are idealised as
    rationals for stored data and as real numbers for similarity scores.
  * `utils/highlight_extractor.py` (class `HighlightExtractor`):
    criterion generation, compression policy, and the matching step
    `match_clips` (point parsing, per-point top-k, timestamp sort, index
    dedup, 3-second overlap resolution).
  * `app.py` (`process_highlight`): the six-stage orchestrator with its
    catch-all failure handler, modelled with explicit stage outcomes.

Python exceptions are modelled with `Except` / explicit error fields, and
mutation of `self` is modelled by explicit state passing.
-/

/-- Supported embedding dimensions; the key set of
`self.vectors_by_dimension` in `DimensionAwareVectorSearch.__init__`. -/
def supportedDims : List ℕ := [256, 384, 1024, 3072]

/-- Association-list lookup: first value stored under the key. -/
def lookupA {κ α : Type} [DecidableEq κ] : List (κ × α) → κ → Option α
  | [], _ => none
  | (k, v) :: rest, key => if k = key then some v else lookupA rest key

/-- Association-list update with Python-dict semantics: an existing key is
overwritten in place (its position is kept), a new key is appended. -/
def updateA {κ α : Type} [DecidableEq κ] : List (κ × α) → κ → α → List (κ × α)
  | [], key, v => [(key, v)]
  | (k, w) :: rest, key, v =>
    if k = key then (key, v) :: rest else (k, w) :: updateA rest key v

/-- Association-list deletion (`del d[key]`): the first binding of the key
is removed. -/
def removeA {κ α : Type} [DecidableEq κ] : List (κ × α) → κ → List (κ × α)
  | [], _ => []
  | (k, w) :: rest, key => if k = key then rest else (k, w) :: removeA rest key

/-- Metadata record as stored by `add_vector`: the caller metadata (opaque
here) together with the `dimension` entry merged in. -/
structure MetaD where
  base : String
  dimension : ℕ
deriving DecidableEq, Repr

/-- Durable object body `{'id': ..., 'vector': ..., 'metadata': ...}`
written by `add_vector` under `vectors/{dimension}/{id}.json`. -/
structure S3Object where
  id : String
  vector : List ℚ
  metadata : MetaD
deriving DecidableEq, Repr

/-- Shard of one dimension: insertion-ordered id-to-vector map. -/
abbrev Shard := List (String × List ℚ)

/-- State of `DimensionAwareVectorSearch`: per-dimension in-memory shards,
the flat metadata map, and the durable bucket contents. -/
structure Store where
  shards : List (ℕ × Shard)
  metadata : List (String × MetaD)
  s3 : List (String × S3Object)
deriving DecidableEq, Repr

/-- Fresh store as built by `__init__`: the four supported dimensions with
empty shards, empty metadata; the bucket is an external input. -/
def mkStore (bucket : List (String × S3Object)) : Store :=
  { shards := [(256, []), (384, []), (1024, []), (3072, [])]
    metadata := []
    s3 := bucket }

/-- Errors raised by `add_vector`, one constructor per `raise` site. -/
inductive VecErr where
  | emptyVector
  | allZeros
  | unsupportedDimension (d : ℕ)
  | dimensionTooSmall (d : ℕ)
  | persistenceError
deriving DecidableEq, Repr

/-- Spec taxonomy: which `add_vector` errors count as `InvalidVector`
(empty, all-zero, or dimension below the 100 floor). -/
def VecErr.isInvalidVector : VecErr → Bool
  | .emptyVector => true
  | .allZeros => true
  | .dimensionTooSmall _ => true
  | _ => false

/-- Spec taxonomy: which `add_vector` errors count as `UnsupportedDimension`. -/
def VecErr.isUnsupportedDim : VecErr → Bool
  | .unsupportedDimension _ => true
  | _ => false

/-- Observable events of one `add_vector` call, used to record the order in
which the record touches the in-memory maps and durable storage. -/
inductive Event where
  | memVector (id : String)
  | memMetadata (id : String)
  | persistPut (key : String)
deriving DecidableEq, Repr

/-- Durable key used by `add_vector`: `vectors/{dimension}/{id}.json`. -/
def s3Key (dimension : ℕ) (id : String) : String :=
  "vectors/" ++ toString dimension ++ "/" ++ id ++ ".json"

/-- Outcome of `add_vector`: the state the object is left in (mutation of
`self` is explicit), the events in execution order, and the raised error if
any. -/
structure AddResult where
  store : Store
  events : List Event
  error : Option VecErr
deriving DecidableEq, Repr

/-- Update the shard of one dimension inside the shard table. -/
def updShard (shards : List (ℕ × Shard)) (d : ℕ) (id : String) (v : List ℚ) :
    List (ℕ × Shard) :=
  updateA shards d (updateA ((lookupA shards d).getD []) id v)

/-- Delete one id from the shard of one dimension. -/
def delShard (shards : List (ℕ × Shard)) (d : ℕ) (id : String) :
    List (ℕ × Shard) :=
  updateA shards d (removeA ((lookupA shards d).getD []) id)

/-- Model of `DimensionAwareVectorSearch.add_vector`.  `persistOk` is the
outcome of the `put_object` call to durable storage.  The checks, the two
in-memory writes, the persistence attempt, and the rollback on persistence
failure follow the source order. -/
def addVector (persistOk : Bool) (st : Store) (id : String) (vector : List ℚ)
    (metadata : String) : AddResult :=
  if vector = [] then
    { store := st, events := [], error := some .emptyVector }
  else if ¬ vector.any (· ≠ 0) then
    { store := st, events := [], error := some .allZeros }
  else
    let dimension := vector.length
    if dimension ∉ supportedDims then
      { store := st, events := [], error := some (.unsupportedDimension dimension) }
    else if dimension < 100 then
      { store := st, events := [], error := some (.dimensionTooSmall dimension) }
    else
      let metaW : MetaD := ⟨metadata, dimension⟩
      let st1 : Store := { st with shards := updShard st.shards dimension id vector }
      let st2 : Store := { st1 with metadata := updateA st1.metadata id metaW }
      let key := s3Key dimension id
      let tr := [Event.memVector id, Event.memMetadata id, Event.persistPut key]
      if persistOk then
        { store := { st2 with s3 := updateA st2.s3 key ⟨id, vector, metaW⟩ }
          events := tr
          error := none }
      else
        let st3 : Store := { st2 with shards := delShard st2.shards dimension id }
        let st4 : Store := { st3 with metadata := removeA st3.metadata id }
        { store := st4, events := tr, error := some .persistenceError }

/-- Dot product of two float lists (`np.dot` on equal-length vectors,
idealised over the rationals). -/
def dotQ : List ℚ → List ℚ → ℚ
  | a :: as, b :: bs => a * b + dotQ as bs
  | _, _ => 0

/-- Sum of squares of a vector, the square of `np.linalg.norm`. -/
def sumSq (v : List ℚ) : ℚ := dotQ v v

/-- Euclidean norm `np.linalg.norm` of a float list, as a real number. -/
noncomputable def nrm (v : List ℚ) : ℝ := Real.sqrt ((sumSq v : ℚ) : ℝ)

/-- Model of `DimensionAwareVectorSearch.cosine_similarity`: dot product
over the product of norms, returning 0 when either norm is 0.  The final
NaN/infinity clamp of the source is vacuous in this real-number model
(division is total and never produces a NaN), so it has no counterpart. -/
noncomputable def cosineSimDS (vec1 vec2 : List ℚ) : ℝ :=
  open Classical in
  if nrm vec1 = 0 ∨ nrm vec2 = 0 then 0
  else ((dotQ vec1 vec2 : ℚ) : ℝ) / (nrm vec1 * nrm vec2)

/-- Errors raised by `DimensionAwareVectorSearch.search`: the explicit
dimension-mismatch `raise`, and the uncaught Python `KeyError` from
`self.vectors_by_dimension[search_dimension]` on an unsupported dimension. -/
inductive SearchErr where
  | dimensionMismatch (queryDim targetDim : ℕ)
  | keyError (d : ℕ)
deriving DecidableEq, Repr

/-- One search result `{'id': ..., 'similarity': ..., 'metadata': ...}`;
`pos` records the insertion position of the vector in its shard (the
enumeration index `i` of the source loop). -/
structure Scored where
  id : String
  similarity : ℝ
  metadata : Option MetaD
  pos : ℕ

/-- Key layout used for one dimension directory in durable storage. -/
def dimDir (d : ℕ) : String := "vectors/" ++ toString d ++ "/"

/-- Model of `load_vectors_by_dimension`: every `.json` object under the
dimension directory is loaded into the in-memory shard and metadata map.
Per-object and whole-listing errors are swallowed by the source (the
method logs and returns), so the model has no failure path. -/
def loadVectorsByDimension (st : Store) (d : ℕ) : Store :=
  (st.s3.filter (fun kv => (kv.1.startsWith (dimDir d)) && kv.1.endsWith ".json")).foldl
    (fun acc kv =>
      { acc with
        shards := updShard acc.shards d kv.2.id kv.2.vector
        metadata := updateA acc.metadata kv.2.id kv.2.metadata }) st

/-- Scoring loop of `search`: cosine similarity of the query against every
vector of the shard, in insertion order, each result carrying the metadata
lookup.  The source drops entries whose similarity is NaN or infinite, but
`cosine_similarity` already clamps those to 0.0, so in this real-number
model no entry is dropped. -/
noncomputable def scoreShard (q : List ℚ) (vectors : Shard)
    (meta : List (String × MetaD)) : List Scored :=
  vectors.enum.map (fun p =>
    { id := p.2.1
      similarity := cosineSimDS q p.2.2
      metadata := lookupA meta p.2.1
      pos := p.1 })

/-- Stable insertion step: `r` is placed after every element that `keep`s
its place in front of `r`. -/
def insK {α : Type} (keep : α → α → Prop) [DecidableRel keep] (r : α) :
    List α → List α
  | [] => [r]
  | a :: rest => if keep a r then a :: insK keep r rest else r :: a :: rest

/-- Stable sort by repeated insertion, processing the input left to right;
with `keep a r` meaning "`a` sorts no later than `r`" this matches the
semantics of a stable Python `list.sort`. -/
def sortK {α : Type} (keep : α → α → Prop) [DecidableRel keep] (l : List α) :
    List α :=
  l.foldl (fun acc r => insK keep r acc) []

/-- Descending stable sort by similarity (`similarities.sort(key=...,
reverse=True)`; Python sorts are stable, ties keep insertion order). -/
noncomputable def sortScoredDesc (l : List Scored) : List Scored :=
  open Classical in
  sortK (fun a b => b.similarity ≤ a.similarity) l

/-- Shard lookup and scoring part of `search` for a chosen dimension:
unsupported dimensions raise `KeyError`; an empty shard is lazily hydrated
from durable storage once; an empty (still) shard short-circuits to `[]`;
otherwise the scored shard is sorted descending and truncated to `top_k`. -/
noncomputable def shardSearch (st : Store) (d : ℕ) (q : List ℚ) (topK : ℕ) :
    Except SearchErr (List Scored) :=
  if d ∈ supportedDims then
    let st1 := if (lookupA st.shards d).getD [] = [] then loadVectorsByDimension st d else st
    let vectors := (lookupA st1.shards d).getD []
    if vectors = [] then .ok []
    else .ok ((sortScoredDesc (scoreShard q vectors st1.metadata)).take topK)
  else .error (.keyError d)

/-- Model of `DimensionAwareVectorSearch.search`: with a target dimension
the query length must match it exactly; otherwise the query length selects
the shard. -/
noncomputable def search (st : Store) (q : List ℚ) (topK : ℕ)
    (target : Option ℕ) : Except SearchErr (List Scored) :=
  match target with
  | some t =>
    if q.length ≠ t then .error (.dimensionMismatch q.length t)
    else shardSearch st t q topK
  | none => shardSearch st q.length q topK

/-- Model of `HighlightExtractor.cosine_similarity`: plain
`dot / (norm * norm)` with no zero-norm guard.  A zero norm forces a zero
dot product, and real division by zero is 0 in this model, where numpy
would produce a NaN (which every later strict comparison also rejects). -/
noncomputable def cosineSimHE (a b : List ℚ) : ℝ :=
  ((dotQ a b : ℚ) : ℝ) / (nrm a * nrm b)

/-- Candidate segment produced by `extract_clips_with_embeddings` (step 4):
source video, output directory, start offset `timestamp`, duration, index,
optional embedding, and the lazily materialised clip path. -/
structure Clip where
  videoSource : String
  outputDir : String
  timestamp : ℚ
  duration : ℚ
  index : ℕ
  embedding : Option (List ℚ)
  path : Option String
deriving DecidableEq, Repr

/-- Copy of a candidate enriched by `match_clips` with the matched point
text and the similarity score (`clip_copy['similarity'] = ...`). -/
structure SelClip where
  clip : Clip
  similarity : ℝ
  point : String

/-- Line markers recognised by the point parser of `match_clips`. -/
def pointMarkers : List String :=
  ["A.", "B.", "C.", "D.", "E.", "F.", "G.", "H.", "I.", "J."]

/-- Newline split (`analysis.split('\\n')`), over the character list of the
text (the built-in string functions do not reduce in the kernel). -/
def splitNl : List Char → List (List Char)
  | [] => [[]]
  | c :: cs =>
    if c = '\n' then [] :: splitNl cs
    else match splitNl cs with
      | h :: t => (c :: h) :: t
      | [] => [[c]]

/-- Whitespace test used by `str.strip()`. -/
def isWsp (c : Char) : Bool := c = ' ' || c = '\t' || c = '\n' || c = '\r'

/-- Python `str.strip()`: leading and trailing whitespace removed. -/
def strip (l : List Char) : List Char :=
  ((l.dropWhile isWsp).reverse.dropWhile isWsp).reverse

/-- Python `str.startswith`. -/
def leadsWith : List Char → List Char → Bool
  | [], _ => true
  | _ :: _, [] => false
  | p :: ps, c :: cs => p = c && leadsWith ps cs

/-- Point extraction of `match_clips`: each line is stripped, kept when
non-empty and starting with one of the ten markers. -/
def parsePoints (analysis : String) : List String :=
  (((splitNl analysis.data).map strip).filter
    (fun s => !s.isEmpty && pointMarkers.any (fun p => leadsWith p.data s))).map
    (fun l => String.mk l)

/-- Per-point body of the `match_clips` loop: embed the point text (a
failure propagates, as the source has no try/except around
`self.get_embedding`), score every valid candidate, keep scores strictly
above the threshold, sort descending by similarity (stable) and keep the
top `top_k_per_point`. -/
noncomputable def perPoint (getEmb : String → Except String (List ℚ))
    (validClips : List Clip) (threshold : ℝ) (topK : ℕ) (point : String) :
    Except String (List SelClip) :=
  open Classical in
  match getEmb point with
  | .error e => .error e
  | .ok textEmb =>
    let sims : List SelClip := validClips.filterMap (fun c =>
      match c.embedding with
      | some videoEmb =>
        let similarity := cosineSimHE textEmb videoEmb
        if threshold < similarity then some ⟨c, similarity, point⟩ else none
      | none => none)
    .ok ((sortK (fun a b => b.similarity ≤ a.similarity) sims).take topK)

/-- Sequential processing of all points, extending `selected_clips` in
point order; the first embedding failure aborts the whole loop. -/
noncomputable def collectPoints (getEmb : String → Except String (List ℚ))
    (validClips : List Clip) (threshold : ℝ) (topK : ℕ) :
    List String → Except String (List SelClip)
  | [] => .ok []
  | p :: ps =>
    match perPoint getEmb validClips threshold topK p with
    | .error e => .error e
    | .ok xs =>
      match collectPoints getEmb validClips threshold topK ps with
      | .error e => .error e
      | .ok rest => .ok (xs ++ rest)

/-- Stable ascending sort by start offset
(`selected_clips.sort(key=lambda x: x['timestamp'])`). -/
def sortSelByTime (l : List SelClip) : List SelClip :=
  sortK (fun a b => a.clip.timestamp ≤ b.clip.timestamp) l

/-- Exact-repeat removal: a segment index already seen is skipped. -/
def dedupByIndex : List SelClip → List ℕ → List SelClip
  | [], _ => []
  | c :: cs, seen =>
    if c.clip.index ∈ seen then dedupByIndex cs seen
    else c :: dedupByIndex cs (c.clip.index :: seen)

/-- First already-accepted clip within the 3-second window of `c`
(`abs(clip['timestamp'] - selected['timestamp']) < 3`); the source loop
breaks at the first hit. -/
def findOverlap (filtered : List SelClip) (c : SelClip) : Option SelClip :=
  filtered.find? (fun s => decide (|c.clip.timestamp - s.clip.timestamp| < 3))

/-- Python `list.remove`: the first element equal to `x` is dropped. -/
noncomputable def removeFirstSel (x : SelClip) : List SelClip → List SelClip :=
  open Classical in fun l =>
  match l with
  | [] => []
  | y :: ys => if y = x then ys else y :: removeFirstSel x ys

/-- One iteration of the overlap-resolution loop: no accepted clip within
the window appends `c`; otherwise the first overlapping accepted clip is
replaced by `c` exactly when `c` has strictly higher similarity. -/
noncomputable def overlapStep (filtered : List SelClip) (c : SelClip) :
    List SelClip :=
  open Classical in
  match findOverlap filtered c with
  | none => filtered ++ [c]
  | some s =>
    if s.similarity < c.similarity then removeFirstSel s filtered ++ [c]
    else filtered

/-- Whole overlap-resolution pass over the deduplicated clips. -/
noncomputable def resolveOverlaps (l : List SelClip) : List SelClip :=
  l.foldl overlapStep []

/-- Zero-padded four-digit index used in `clip_{index:04d}.mp4`. -/
def pad4 (n : ℕ) : String :=
  let s := toString n
  String.mk (List.replicate (4 - s.length) '0') ++ s

/-- Clip file name chosen at extraction time. -/
def clipFileName (c : Clip) : String :=
  c.outputDir ++ "/clip_" ++ pad4 c.index ++ ".mp4"

/-- Lazy materialisation after final selection: a clip without a file gets
one extracted (the ffmpeg subprocess is modelled as succeeding). -/
def materialize (c : SelClip) : SelClip :=
  if c.clip.path = none then
    { c with clip := { c.clip with path := some (clipFileName c.clip) } }
  else c

/-- Model of `HighlightExtractor.match_clips`: parse points, keep
candidates with embeddings, per-point top-k scoring, sort by start offset,
index dedup, overlap resolution, final sort, lazy extraction. -/
noncomputable def matchClips (getEmb : String → Except String (List ℚ))
    (analysis : String) (clips : List Clip) (threshold : ℝ) (topK : ℕ) :
    Except String (List SelClip) :=
  let points := parsePoints analysis
  let validClips := clips.filter (fun c => c.embedding.isSome)
  match collectPoints getEmb validClips threshold topK points with
  | .error e => .error e
  | .ok selected =>
    let uniqueClips := dedupByIndex (sortSelByTime selected) []
    let filtered := resolveOverlaps uniqueClips
    .ok ((sortSelByTime filtered).map materialize)

/-- Built-in default criterion returned by `generate_criteria` when the
generative-model call fails. -/
def defaultCriteria : String :=
  "## 高光片段判定标准：\n- 动作精彩或技巧性强的时刻\n- 情感表达丰富或戏剧性的瞬间\n- 关键转折点或重要事件\n- 视觉效果突出或构图优美的片段\n- 具有故事性或叙事价值的时刻"

/-- Model of `HighlightExtractor.generate_criteria`: `invoke` stands for
the prompt build, the generative-model call and the response parse; any
exception in it falls back to the built-in default criterion. -/
def generateCriteria (invoke : String → Except String String)
    (theme : String) : String :=
  match invoke theme with
  | .ok criteria => criteria
  | .error _ => defaultCriteria

/-- Model of `HighlightExtractor.compress_video`: `probe` is the ffprobe
call yielding (size in MB, duration in seconds), `runCompress` the ffmpeg
transcode, `outputExists` the final file check.  Every failure path —
including a failing probe — returns the input path, so the stage never
raises. -/
def compressVideo (probe : Except String (ℚ × ℚ))
    (runCompress : Except String Unit) (outputExists : Bool)
    (inputPath outputPath : String) (maxSizeMb : ℚ) : String :=
  match probe with
  | .error _ => inputPath
  | .ok (originalSize, _) =>
    if originalSize ≤ 25 then inputPath
    else if originalSize ≤ maxSizeMb then inputPath
    else
      match runCompress with
      | .error _ => inputPath
      | .ok _ => if outputExists then outputPath else inputPath

/-- One entry of the `clips_info` list shown to the caller after matching. -/
structure ClipInfo where
  url : String
  timestamp : ℚ
  similarity : ℝ
  description : String

/-- Value stored under the `clips` key of a job record: step 4 stores the
raw candidate list, step 5 overwrites it with display info. -/
inductive ClipsField where
  | raw (clips : List Clip)
  | info (clips : List ClipInfo)

/-- Highlight job record of `app.py` (`highlight_jobs[job_id]`); every
artifact a stage may write is an optional field, absent until written. -/
structure Job where
  status : String
  currentStep : ℕ
  progress : ℕ
  theme : String
  videoPath : String
  workDir : String
  stepMessages : ℕ → String
  criteria : Option String
  compressedPath : Option String
  analysis : Option String
  clips : Option ClipsField
  clipsCount : Option ℕ
  highlightVideoPath : Option String
  highlightVideoUrl : Option String
  originalDuration : Option ℚ
  highlightDuration : Option ℚ
  error : Option String

/-- Pointwise update of the step-message map. -/
def updMsg (f : ℕ → String) (k : ℕ) (v : String) : ℕ → String :=
  fun n => if n = k then v else f n

/-- Job record as created by `extract_highlight` before the worker starts. -/
def initJob (theme videoPath workDir : String) : Job :=
  { status := "processing"
    currentStep := 1
    progress := 0
    theme := theme
    videoPath := videoPath
    workDir := workDir
    stepMessages := fun n => if n = 1 then "正在生成高光判定标准..." else "等待中..."
    criteria := none
    compressedPath := none
    analysis := none
    clips := none
    clipsCount := none
    highlightVideoPath := none
    highlightVideoUrl := none
    originalDuration := none
    highlightDuration := none
    error := none }

/-- Catch-all handler of `process_highlight`: the job keeps everything
already recorded, gets status `failed` and the exception text. -/
def failJob (j : Job) (e : String) : Job :=
  { j with status := "failed", error := some e }

/-- Model of the `process_highlight` worker of `app.py`.  Each `s?`
parameter is the outcome of the corresponding stage call (an `Except`
capturing a possible unhandled exception); `durOrig`/`durHigh` are the
`get_video_duration` results (that helper never raises).  Progress,
current step and messages are written in source order, and any stage error
jumps to the catch-all handler. -/
def processHighlight (theme videoPath workDir : String)
    (s1 s2 s3 : Except String String) (s4 : Except String (List Clip))
    (s5 : Except String (List SelClip)) (s6 : Except String Unit)
    (durOrig durHigh : ℚ) : Job :=
  let j0 := initJob theme videoPath workDir
  let j1 := { j0 with currentStep := 1, progress := 5,
                      stepMessages := updMsg j0.stepMessages 1 "正在调用Claude Opus生成标准..." }
  match s1 with
  | .error e => failJob j1 e
  | .ok criteria =>
  let j2 := { j1 with criteria := some criteria,
                      stepMessages := updMsg j1.stepMessages 1 "✅ 标准生成完成",
                      progress := 15 }
  let j3 := { j2 with currentStep := 2,
                      stepMessages := updMsg j2.stepMessages 2 "正在压缩视频..." }
  match s2 with
  | .error e => failJob j3 e
  | .ok compressedPath =>
  let j4 := { j3 with compressedPath := some compressedPath,
                      stepMessages := updMsg j3.stepMessages 2 "✅ 视频压缩完成",
                      progress := 25 }
  let j5 := { j4 with currentStep := 3,
                      stepMessages := updMsg j4.stepMessages 3 "正在使用Nova Pro分析视频..." }
  match s3 with
  | .error e => failJob j5 e
  | .ok analysis =>
  let j6 := { j5 with analysis := some analysis,
                      stepMessages := updMsg j5.stepMessages 3 "✅ 视频分析完成",
                      progress := 45 }
  let j7 := { j6 with currentStep := 4,
                      stepMessages := updMsg j6.stepMessages 4 "正在切片视频并生成向量嵌入..." }
  match s4 with
  | .error e => failJob j7 e
  | .ok clips =>
  let successCount := (clips.filter (fun c => c.embedding.isSome)).length
  let j8 := { j7 with clips := some (.raw clips),
                      stepMessages := updMsg j7.stepMessages 4
                        ("✅ 已切片 " ++ toString clips.length ++ " 个片段，向量生成成功 "
                          ++ toString successCount ++ " 个"),
                      progress := 65 }
  let j9 := { j8 with currentStep := 5,
                      stepMessages := updMsg j8.stepMessages 5 "正在匹配高光片段..." }
  match s5 with
  | .error e => failJob j9 e
  | .ok selectedClips =>
  let clipsInfo := selectedClips.map (fun c =>
    ClipInfo.mk ("/" ++ (c.clip.path.getD "").replace "\\" "/")
      c.clip.timestamp c.similarity (c.point.take 100))
  let j10 := { j9 with clips := some (.info clipsInfo),
                       clipsCount := some selectedClips.length,
                       stepMessages := updMsg j9.stepMessages 5
                         ("✅ 匹配到 " ++ toString selectedClips.length ++ " 个高光片段"),
                       progress := 85 }
  let j11 := { j10 with currentStep := 6,
                        stepMessages := updMsg j10.stepMessages 6 "正在拼接高光视频..." }
  match s6 with
  | .error e => failJob j11 e
  | .ok _ =>
  let hlPath := workDir ++ "/highlight.mp4"
  let j12 := { j11 with highlightVideoPath := some hlPath,
                        highlightVideoUrl := some ("/" ++ hlPath.replace "\\" "/"),
                        stepMessages := updMsg j11.stepMessages 6 "✅ 高光视频生成完成",
                        progress := 100 }
  let j13 := { j12 with originalDuration := some durOrig,
                        highlightDuration := some durHigh }
  { j13 with status := "completed", currentStep := 6 }

theorem lookupA_updateA_self {κ α : Type} [DecidableEq κ]
    (l : List (κ × α)) (k : κ) (v : α) : lookupA (updateA l k v) k = some v := by
  induction l with
  | nil => simp [updateA, lookupA]
  | cons hd t ih =>
    obtain ⟨k1, v1⟩ := hd
    by_cases hk : k1 = k <;> simp [updateA, lookupA, hk, ih]

theorem updateA_updateA {κ α : Type} [DecidableEq κ]
    (l : List (κ × α)) (k : κ) (v w : α) :
    updateA (updateA l k v) k w = updateA l k w := by
  induction l with
  | nil => simp [updateA]
  | cons hd t ih =>
    obtain ⟨k1, v1⟩ := hd
    by_cases hk : k1 = k <;> simp [updateA, hk, ih]

theorem updateA_lookup_self {κ α : Type} [DecidableEq κ]
    (l : List (κ × α)) (k : κ) (v : α) (h : lookupA l k = some v) :
    updateA l k v = l := by
  induction l with
  | nil => simp [lookupA] at h
  | cons hd t ih =>
    obtain ⟨k1, v1⟩ := hd
    by_cases hk : k1 = k
    · simp [lookupA, hk] at h
      simp [updateA, hk, h]
    · simp [lookupA, hk] at h
      simp [updateA, hk, ih h]

theorem removeA_updateA_fresh {κ α : Type} [DecidableEq κ]
    (l : List (κ × α)) (k : κ) (v : α) (h : k ∉ l.map Prod.fst) :
    removeA (updateA l k v) k = l := by
  induction l with
  | nil => simp [updateA, removeA]
  | cons hd t ih =>
    obtain ⟨k1, v1⟩ := hd
    simp only [List.map_cons, List.mem_cons] at h
    push_neg at h
    have hk : ¬ k1 = k := fun hh => h.1 hh.symm
    simp [updateA, removeA, hk, ih h.2]

theorem delShard_updShard (shards : List (ℕ × Shard)) (d : ℕ) (id : String)
    (v : List ℚ) (s0 : Shard) (h : lookupA shards d = some s0)
    (hid : id ∉ s0.map Prod.fst) :
    delShard (updShard shards d id v) d id = shards := by
  unfold delShard updShard
  rw [lookupA_updateA_self, h]
  simp only [Option.getD_some]
  rw [removeA_updateA_fresh _ _ _ hid, updateA_updateA,
    updateA_lookup_self _ _ _ h]

theorem addVector_error_eq (pOk : Bool) (st : Store) (id m : String)
    (v : List ℚ) :
    (addVector pOk st id v m).error =
      if v = [] then some .emptyVector
      else if ¬ v.any (· ≠ 0) then some .allZeros
      else if v.length ∉ supportedDims then some (.unsupportedDimension v.length)
      else if pOk then none
      else some .persistenceError := by
  have key : v.length ∈ supportedDims → ¬ v.length < 100 := by
    intro h
    simp only [supportedDims, List.mem_cons, List.not_mem_nil, or_false] at h
    omega
  simp only [addVector]
  split_ifs with h1 h2 h3 h4 h5 <;>
    first
      | rfl
      | exact absurd ‹v.length < 100› (key ‹v.length ∈ supportedDims›)

/-- C3 (amended claim): `add_vector` rejects an empty vector and an
all-zero vector with an InvalidVector-class error, but any other vector
whose length is not a supported dimension — including every vector of
fewer than 100 components — is rejected with `UnsupportedDimension`,
because the supported-dimension check runs before the 100-component floor;
the dimension-too-small InvalidVector error is unreachable, and an
InvalidVector-class error implies the vector was empty or all-zero. -/
theorem addVector_validation (pOk : Bool) (st : Store) (id m : String)
    (v : List ℚ) :
    (v = [] → (addVector pOk st id v m).error = some .emptyVector)
    ∧ (v ≠ [] → (∀ x ∈ v, x = 0) →
        (addVector pOk st id v m).error = some .allZeros)
    ∧ ((∃ x ∈ v, x ≠ 0) → v.length ∉ supportedDims →
        (addVector pOk st id v m).error = some (.unsupportedDimension v.length))
    ∧ (∀ d, (addVector pOk st id v m).error ≠ some (.dimensionTooSmall d))
    ∧ (∀ e, (addVector pOk st id v m).error = some e →
        e.isInvalidVector = true → v = [] ∨ ∀ x ∈ v, x = 0) := by
  refine ⟨?_, ?_, ?_, ?_, ?_⟩
  · intro h
    rw [addVector_error_eq]
    simp [h]
  · intro hne hz
    rw [addVector_error_eq]
    have hany : ¬ (v.any fun x => decide (x ≠ 0)) = true := by
      simp only [List.any_eq_true, decide_eq_true_eq, ne_eq, not_exists, not_and,
        not_not]
      exact hz
    rw [if_neg hne, if_pos hany]
  · intro hx hdim
    have hne : v ≠ [] := by
      rintro rfl
      simp at hx
    have hany : (v.any fun x => decide (x ≠ 0)) = true := by
      simp only [List.any_eq_true, decide_eq_true_eq, ne_eq]
      simpa using hx
    rw [addVector_error_eq, if_neg hne, if_neg (not_not.mpr hany), if_pos hdim]
  · intro d
    rw [addVector_error_eq]
    split_ifs <;> simp
  · intro e he hinv
    by_cases h1 : v = []
    · exact Or.inl h1
    refine Or.inr ?_
    by_cases hz : ∀ x ∈ v, x = 0
    · exact hz
    exfalso
    have hany : (v.any fun x => decide (x ≠ 0)) = true := by
      simp only [List.any_eq_true, decide_eq_true_eq, ne_eq]
      push_neg at hz
      simpa using hz
    rw [addVector_error_eq, if_neg h1, if_neg (not_not.mpr hany)] at he
    by_cases hd : v.length ∉ supportedDims
    · rw [if_pos hd] at he
      have hee := Option.some.inj he
      subst hee
      simp [VecErr.isInvalidVector] at hinv
    · rw [if_neg hd] at he
      by_cases hp : pOk = true
      · rw [if_pos hp] at he
        simp at he
      · rw [if_neg hp] at he
        have hee := Option.some.inj he
        subst hee
        simp [VecErr.isInvalidVector] at hinv

/-- C3 witness: the amended claim at a concrete length-50 vector. -/
theorem addVector_validation_witness :
    ((∃ x ∈ List.replicate 50 (1:ℚ), x ≠ 0)
      ∧ (List.replicate 50 (1:ℚ)).length ∉ supportedDims)
    ∧ (addVector true (mkStore []) "x" (List.replicate 50 (1:ℚ)) "m").error
        = some (.unsupportedDimension (List.replicate 50 (1:ℚ)).length) :=
  ⟨⟨⟨1, by decide, by decide⟩, by decide⟩,
    (addVector_validation true (mkStore []) "x" "m" (List.replicate 50 1)).2.2.1
      ⟨1, by decide, by decide⟩ (by decide)⟩

/-- C3 counterexample: a non-zero vector of length 50 is rejected with the
UnsupportedDimension-class error, not with an InvalidVector-class error as
the claim states. -/
theorem addVector_len50_cex :
    (addVector true (mkStore []) "x" (List.replicate 50 (1:ℚ)) "m").error
        = some (.unsupportedDimension 50)
    ∧ VecErr.isInvalidVector (.unsupportedDimension 50) = false := by
  decide

theorem addVector_valid_eq (pOk : Bool) (st : Store) (id m : String)
    (v : List ℚ) (hne : v ≠ []) (hnz : ∃ x ∈ v, x ≠ 0)
    (hdim : v.length ∈ supportedDims) :
    addVector pOk st id v m =
      if pOk then
        ⟨{ shards := updShard st.shards v.length id v
           metadata := updateA st.metadata id ⟨m, v.length⟩
           s3 := updateA st.s3 (s3Key v.length id) ⟨id, v, ⟨m, v.length⟩⟩ },
          [.memVector id, .memMetadata id, .persistPut (s3Key v.length id)],
          none⟩
      else
        ⟨{ shards := delShard (updShard st.shards v.length id v) v.length id
           metadata := removeA (updateA st.metadata id ⟨m, v.length⟩) id
           s3 := st.s3 },
          [.memVector id, .memMetadata id, .persistPut (s3Key v.length id)],
          some .persistenceError⟩ := by
  have h100 : ¬ v.length < 100 := by
    simp only [supportedDims, List.mem_cons, List.not_mem_nil, or_false] at hdim
    omega
  have hany : (v.any fun x => decide (x ≠ 0)) = true := by
    simp only [List.any_eq_true, decide_eq_true_eq, ne_eq]
    simpa using hnz
  simp only [addVector]
  rw [if_neg hne, if_neg (not_not.mpr hany), if_neg (not_not.mpr hdim),
    if_neg h100]

/-- C2 (amended claim): for valid input, `add_vector` writes the record
into the in-memory shard and metadata map first and only then attempts the
durable put under `vectors/{dimension}/{id}.json`; on persistence failure
it raises a persistence error and deletes the id from the in-memory shard
and metadata, which restores the pre-call state exactly when the id was
previously absent (when the id was present, its old record is lost — see
the counterexample). -/
theorem addVector_persistOrder (st : Store) (id m : String) (v : List ℚ)
    (hne : v ≠ []) (hnz : ∃ x ∈ v, x ≠ 0)
    (hdim : v.length ∈ supportedDims) :
    ((addVector true st id v m).events
        = [.memVector id, .memMetadata id, .persistPut (s3Key v.length id)]
      ∧ (addVector true st id v m).error = none
      ∧ lookupA (addVector true st id v m).store.s3 (s3Key v.length id)
          = some ⟨id, v, ⟨m, v.length⟩⟩)
    ∧ ((addVector false st id v m).error = some .persistenceError
      ∧ ∀ s0, lookupA st.shards v.length = some s0 →
          id ∉ s0.map Prod.fst → id ∉ st.metadata.map Prod.fst →
          (addVector false st id v m).store = st) := by
  rw [addVector_valid_eq true st id m v hne hnz hdim,
    addVector_valid_eq false st id m v hne hnz hdim]
  refine ⟨⟨rfl, rfl, lookupA_updateA_self _ _ _⟩, rfl, ?_⟩
  intro s0 hs0 hids hidm
  simp only [if_neg Bool.false_ne_true]
  rw [delShard_updShard st.shards v.length id v s0 hs0 hids,
    removeA_updateA_fresh st.metadata id ⟨m, v.length⟩ hidm]

/-- C2 witness: the amended claim at a fresh id in an empty store. -/
theorem addVector_persistOrder_witness :
    (List.replicate 256 (1:ℚ) ≠ []
      ∧ (List.replicate 256 (1:ℚ)).length ∈ supportedDims)
    ∧ ((addVector true (mkStore []) "a" (List.replicate 256 (1:ℚ)) "m").events
        = [.memVector "a", .memMetadata "a",
           .persistPut (s3Key (List.replicate 256 (1:ℚ)).length "a")]
      ∧ (addVector false (mkStore []) "a" (List.replicate 256 (1:ℚ)) "m").store
          = mkStore []) :=
  ⟨⟨by decide, by decide⟩,
    (addVector_persistOrder (mkStore []) "a" "m" (List.replicate 256 1)
      (by decide) ⟨1, by decide, by decide⟩ (by decide)).1.1,
    (addVector_persistOrder (mkStore []) "a" "m" (List.replicate 256 1)
      (by decide) ⟨1, by decide, by decide⟩ (by decide)).2.2 []
      (by decide) (by decide) (by decide)⟩

/-- C2 store with an id already present, for the counterexample. -/
def cexStore : Store :=
  { shards := [(256, [("a", List.replicate 256 (1:ℚ))]), (384, []), (1024, []), (3072, [])]
    metadata := [("a", ⟨"m", 256⟩)]
    s3 := [] }

/-- C2 counterexample: inserting over an existing id with failing
persistence raises the persistence error but does not restore the
pre-call state (the old record is deleted, not rolled back); and on the
success path the very first observable action is the in-memory write, so
the record is not persisted before it becomes visible in memory. -/
theorem addVector_rollback_cex :
    (addVector false cexStore "a" (List.replicate 256 (2:ℚ)) "m2").error
        = some .persistenceError
    ∧ (addVector false cexStore "a" (List.replicate 256 (2:ℚ)) "m2").store
        ≠ cexStore
    ∧ lookupA ((lookupA (addVector false cexStore "a"
        (List.replicate 256 (2:ℚ)) "m2").store.shards 256).getD []) "a" = none
    ∧ lookupA ((lookupA cexStore.shards 256).getD []) "a"
        = some (List.replicate 256 (1:ℚ))
    ∧ (addVector true cexStore "a" (List.replicate 256 (2:ℚ)) "m2").events.head?
        = some (.memVector "a") := by
  decide

/-- C10: a `search` call without a target dimension whose query length is
not a supported dimension fails with the uncaught `KeyError` from the
shard-table lookup — it neither returns an empty result list nor a
dimension-mismatch error. -/
theorem search_unsupported_keyError (st : Store) (q : List ℚ) (k : ℕ)
    (h : q.length ∉ supportedDims) :
    search st q k none = .error (.keyError q.length) := by
  simp only [search, shardSearch, if_neg h]

/-- C10 witness: a length-3 query against a fresh store. -/
theorem search_unsupported_keyError_witness :
    ([(1:ℚ), 2, 3].length ∉ supportedDims)
    ∧ search (mkStore []) [(1:ℚ), 2, 3] 5 none
        = .error (.keyError [(1:ℚ), 2, 3].length) :=
  ⟨by decide, search_unsupported_keyError (mkStore []) [(1:ℚ), 2, 3] 5 (by decide)⟩

theorem dotQ_comm (a b : List ℚ) : dotQ a b = dotQ b a := by
  induction a generalizing b with
  | nil => cases b <;> simp [dotQ]
  | cons x xs ih =>
    cases b with
    | nil => simp [dotQ]
    | cons y ys => simp [dotQ, mul_comm, ih]

/-- C9: `cosine_similarity` equals the dot product over the product of the
norms whenever both norms are non-zero, returns 0 when either norm is 0,
and is symmetric on non-degenerate inputs. -/
theorem cosineSimDS_spec (a b : List ℚ) :
    (nrm a ≠ 0 → nrm b ≠ 0 →
      cosineSimDS a b = ((dotQ a b : ℚ) : ℝ) / (nrm a * nrm b))
    ∧ ((nrm a = 0 ∨ nrm b = 0) → cosineSimDS a b = 0)
    ∧ (nrm a ≠ 0 → nrm b ≠ 0 → cosineSimDS a b = cosineSimDS b a) := by
  refine ⟨?_, ?_, ?_⟩
  · intro ha hb
    rw [cosineSimDS, if_neg (by tauto)]
  · intro h
    rw [cosineSimDS, if_pos h]
  · intro ha hb
    rw [cosineSimDS, cosineSimDS, if_neg (by tauto), if_neg (by tauto),
      dotQ_comm, mul_comm]

/-- C9 witness: the theorem at the concrete vectors `[1]` and `[2]`. -/
theorem cosineSimDS_spec_witness :
    (nrm [(1:ℚ)] ≠ 0 ∧ nrm [(2:ℚ)] ≠ 0)
    ∧ cosineSimDS [(1:ℚ)] [(2:ℚ)]
        = ((dotQ [(1:ℚ)] [(2:ℚ)] : ℚ) : ℝ) / (nrm [(1:ℚ)] * nrm [(2:ℚ)])
    ∧ cosineSimDS [(1:ℚ)] [(2:ℚ)] = cosineSimDS [(2:ℚ)] [(1:ℚ)] := by
  have ha : nrm [(1:ℚ)] ≠ 0 := by
    have h1 : nrm [(1:ℚ)] = 1 := by
      simp [nrm, sumSq, dotQ, Real.sqrt_one]
    rw [h1]
    exact one_ne_zero
  have hb : nrm [(2:ℚ)] ≠ 0 := by
    have h2 : nrm [(2:ℚ)] = 2 := by
      simp only [nrm, sumSq, dotQ]
      norm_num
      rw [show (4:ℝ) = 2 ^ 2 by norm_num]
      exact Real.sqrt_sq (by norm_num)
    rw [h2]
    exact two_ne_zero
  exact ⟨⟨ha, hb⟩, (cosineSimDS_spec [(1:ℚ)] [(2:ℚ)]).1 ha hb,
    (cosineSimDS_spec [(1:ℚ)] [(2:ℚ)]).2.2 ha hb⟩

/-- C6 counterexample: stage 2 (`compress_video`) also has a non-fatal
fallback — with its inner probe call failing it swallows the error and
returns the input path, so stage 1 is not the only stage with one. -/
theorem compressVideo_fallback_cex :
    compressVideo (.error "ffprobe failed") (.error "ffmpeg failed") false
      "in.mp4" "out.mp4" 100 = "in.mp4" := rfl

/-- C6 (amended claim): when the stage-1 model call throws,
`generate_criteria` returns the built-in non-empty default criterion
instead of failing, so the pipeline proceeds; but stage 1 is not the only
stage with a non-fatal fallback — `compress_video` (stage 2) likewise
catches every error and proceeds with the original video. -/
theorem generateCriteria_fallback (theme e : String)
    (invoke : String → Except String String)
    (hfail : invoke theme = .error e) :
    generateCriteria invoke theme = defaultCriteria
    ∧ defaultCriteria ≠ ""
    ∧ ∀ (e2 : String) (run : Except String Unit) (ex : Bool)
        (i o : String) (m : ℚ), compressVideo (.error e2) run ex i o m = i := by
  refine ⟨?_, by decide, fun _ _ _ _ _ _ => rfl⟩
  rw [generateCriteria, hfail]

/-- C6 witness: the amended claim at a concrete failing model call. -/
theorem generateCriteria_fallback_witness :
    ((fun _ : String => (.error "boom" : Except String String)) "t"
        = .error "boom")
    ∧ (generateCriteria (fun _ => .error "boom") "t" = defaultCriteria
      ∧ defaultCriteria ≠ ""
      ∧ ∀ (e2 : String) (run : Except String Unit) (ex : Bool)
          (i o : String) (m : ℚ),
          compressVideo (.error e2) run ex i o m = i) :=
  ⟨rfl, generateCriteria_fallback "t" "boom" _ rfl⟩

/-- C5 counterexample: an analysis text from which zero labeled points
parse makes `match_clips` return the empty selection with no error — no
NoPointsExtracted failure exists in the code. -/
theorem matchClips_noPoints_cex :
    matchClips (fun _ => .error "never called") "no labeled lines here" []
      (5/100) 3 = .ok [] := by
  have hp : parsePoints "no labeled lines here" = [] := by decide
  simp only [matchClips, hp, collectPoints]
  rfl

/-- C5 (amended claim): if zero labeled highlight points parse from the
analysis text, the matching step does not fail: `match_clips` raises no
error and returns an empty selection (the job only fails later, at the
stitching stage, which rejects an empty clip list). -/
theorem matchClips_noPoints (getEmb : String → Except String (List ℚ))
    (analysis : String) (clips : List Clip) (threshold : ℝ) (topK : ℕ)
    (h : parsePoints analysis = []) :
    matchClips getEmb analysis clips threshold topK = .ok [] := by
  simp only [matchClips, h, collectPoints]
  rfl

/-- C5 witness: the amended claim at a concrete unlabeled analysis. -/
theorem matchClips_noPoints_witness :
    parsePoints "summary only" = []
    ∧ matchClips (fun _ => .ok [1]) "summary only" [] (1/2) 3 = .ok [] :=
  ⟨by decide, matchClips_noPoints _ "summary only" [] (1/2) 3 (by decide)⟩

/-- C4 embedding stub: the second point fails to embed, every other point
embeds successfully. -/
def cexEmb : String → Except String (List ℚ) :=
  fun s => if s = "B. second point" then .error "embed fail" else .ok [1]

/-- C4 counterexample: the first point embeds successfully, the second
fails, and `match_clips` as a whole fails with that error — the failing
point does not simply contribute zero matches while the rest proceeds. -/
theorem matchClips_pointFailure_cex :
    matchClips cexEmb "A. first point\nB. second point" [] (5/100) 3
      = .error "embed fail" := by
  have hp : parsePoints "A. first point\nB. second point"
      = ["A. first point", "B. second point"] := by decide
  have h1 : cexEmb "A. first point" = .ok [1] := rfl
  have h2 : cexEmb "B. second point" = .error "embed fail" := rfl
  unfold matchClips
  rw [hp]
  simp only [collectPoints, perPoint, h1, h2, List.filter_nil,
    List.filterMap_nil, sortK, List.foldl_nil, List.take_nil]

/-- C4 (amended claim): an embedding failure for an individual highlight
point is fatal to the whole matching engine: the loop has no per-point
exception handling, so the first point whose embedding call fails — at any
position in the parsed list, all earlier points having embedded
successfully — aborts `match_clips` with that error, and the remaining
points are not processed. -/
theorem matchClips_pointFailure (getEmb : String → Except String (List ℚ))
    (analysis : String) (clips : List Clip) (threshold : ℝ) (topK : ℕ)
    (pre : List String) (p : String) (ps : List String) (e : String)
    (hp : parsePoints analysis = pre ++ p :: ps)
    (hpre : ∀ q ∈ pre, ∃ v, getEmb q = .ok v)
    (he : getEmb p = .error e) :
    matchClips getEmb analysis clips threshold topK = .error e := by
  have h : ∀ (pre2 : List String), (∀ q ∈ pre2, ∃ v, getEmb q = .ok v) →
      collectPoints getEmb (clips.filter fun c => c.embedding.isSome)
        threshold topK (pre2 ++ p :: ps) = .error e := by
    intro pre2
    induction pre2 with
    | nil =>
      intro _
      simp only [List.nil_append, collectPoints, perPoint, he]
    | cons q qs ih =>
      intro hpre2
      obtain ⟨v, hv⟩ := hpre2 q (List.mem_cons_self q qs)
      have ihh := ih (fun x hx => hpre2 x (List.mem_cons_of_mem q hx))
      simp only [List.cons_append, collectPoints, perPoint, hv,
        List.append_eq, ihh]
  simp only [matchClips, hp, h pre hpre]

/-- C4 witness: the amended claim at a concrete two-point analysis whose
first point embeds successfully and whose second point fails. -/
theorem matchClips_pointFailure_witness :
    (parsePoints "A. first point\nB. second point"
        = ["A. first point"] ++ "B. second point" :: []
      ∧ (∀ q ∈ ["A. first point"], ∃ v, cexEmb q = .ok v)
      ∧ cexEmb "B. second point" = .error "embed fail")
    ∧ matchClips cexEmb "A. first point\nB. second point" [] (1/4) 2
        = .error "embed fail" := by
  have hpre : ∀ q ∈ ["A. first point"], ∃ v, cexEmb q = .ok v := by
    intro q hq
    rw [List.mem_singleton] at hq
    subst hq
    exact ⟨[1], rfl⟩
  exact ⟨⟨by decide, hpre, rfl⟩,
    matchClips_pointFailure cexEmb "A. first point\nB. second point" []
      (1/4) 2 ["A. first point"] "B. second point" [] "embed fail"
      (by decide) hpre rfl⟩

/-- C7: an unhandled exception at any stage of `process_highlight` sets the
job status to failed, records the exception text in the error field, halts
all later stages (their artifact fields stay empty and their step messages
stay at the initial waiting text), and leaves every artifact recorded by
the earlier completed stages unchanged in the job record. -/
theorem processHighlight_failure (theme videoPath workDir : String)
    (s1 s2 s3 : Except String String) (s4 : Except String (List Clip))
    (s5 : Except String (List SelClip)) (s6 : Except String Unit)
    (dO dH : ℚ) (e : String) :
    (s1 = .error e →
      (processHighlight theme videoPath workDir s1 s2 s3 s4 s5 s6 dO dH).status = "failed"
      ∧ (processHighlight theme videoPath workDir s1 s2 s3 s4 s5 s6 dO dH).error = some e
      ∧ (processHighlight theme videoPath workDir s1 s2 s3 s4 s5 s6 dO dH).currentStep = 1
      ∧ (processHighlight theme videoPath workDir s1 s2 s3 s4 s5 s6 dO dH).criteria = none
      ∧ (processHighlight theme videoPath workDir s1 s2 s3 s4 s5 s6 dO dH).analysis = none
      ∧ (processHighlight theme videoPath workDir s1 s2 s3 s4 s5 s6 dO dH).clips = none
      ∧ (processHighlight theme videoPath workDir s1 s2 s3 s4 s5 s6 dO dH).highlightVideoPath = none
      ∧ (∀ k, 2 ≤ k → k ≤ 6 →
          (processHighlight theme videoPath workDir s1 s2 s3 s4 s5 s6 dO dH).stepMessages k = "等待中..."))
    ∧ (∀ c1, s1 = .ok c1 → s2 = .error e →
      (processHighlight theme videoPath workDir s1 s2 s3 s4 s5 s6 dO dH).status = "failed"
      ∧ (processHighlight theme videoPath workDir s1 s2 s3 s4 s5 s6 dO dH).error = some e
      ∧ (processHighlight theme videoPath workDir s1 s2 s3 s4 s5 s6 dO dH).currentStep = 2
      ∧ (processHighlight theme videoPath workDir s1 s2 s3 s4 s5 s6 dO dH).criteria = some c1
      ∧ (processHighlight theme videoPath workDir s1 s2 s3 s4 s5 s6 dO dH).compressedPath = none
      ∧ (processHighlight theme videoPath workDir s1 s2 s3 s4 s5 s6 dO dH).analysis = none
      ∧ (processHighlight theme videoPath workDir s1 s2 s3 s4 s5 s6 dO dH).clips = none
      ∧ (∀ k, 3 ≤ k → k ≤ 6 →
          (processHighlight theme videoPath workDir s1 s2 s3 s4 s5 s6 dO dH).stepMessages k = "等待中..."))
    ∧ (∀ c1 c2, s1 = .ok c1 → s2 = .ok c2 → s3 = .error e →
      (processHighlight theme videoPath workDir s1 s2 s3 s4 s5 s6 dO dH).status = "failed"
      ∧ (processHighlight theme videoPath workDir s1 s2 s3 s4 s5 s6 dO dH).error = some e
      ∧ (processHighlight theme videoPath workDir s1 s2 s3 s4 s5 s6 dO dH).currentStep = 3
      ∧ (processHighlight theme videoPath workDir s1 s2 s3 s4 s5 s6 dO dH).criteria = some c1
      ∧ (processHighlight theme videoPath workDir s1 s2 s3 s4 s5 s6 dO dH).compressedPath = some c2
      ∧ (processHighlight theme videoPath workDir s1 s2 s3 s4 s5 s6 dO dH).analysis = none
      ∧ (processHighlight theme videoPath workDir s1 s2 s3 s4 s5 s6 dO dH).clips = none
      ∧ (∀ k, 4 ≤ k → k ≤ 6 →
          (processHighlight theme videoPath workDir s1 s2 s3 s4 s5 s6 dO dH).stepMessages k = "等待中..."))
    ∧ (∀ c1 c2 c3, s1 = .ok c1 → s2 = .ok c2 → s3 = .ok c3 → s4 = .error e →
      (processHighlight theme videoPath workDir s1 s2 s3 s4 s5 s6 dO dH).status = "failed"
      ∧ (processHighlight theme videoPath workDir s1 s2 s3 s4 s5 s6 dO dH).error = some e
      ∧ (processHighlight theme videoPath workDir s1 s2 s3 s4 s5 s6 dO dH).currentStep = 4
      ∧ (processHighlight theme videoPath workDir s1 s2 s3 s4 s5 s6 dO dH).criteria = some c1
      ∧ (processHighlight theme videoPath workDir s1 s2 s3 s4 s5 s6 dO dH).compressedPath = some c2
      ∧ (processHighlight theme videoPath workDir s1 s2 s3 s4 s5 s6 dO dH).analysis = some c3
      ∧ (processHighlight theme videoPath workDir s1 s2 s3 s4 s5 s6 dO dH).clips = none
      ∧ (∀ k, 5 ≤ k → k ≤ 6 →
          (processHighlight theme videoPath workDir s1 s2 s3 s4 s5 s6 dO dH).stepMessages k = "等待中..."))
    ∧ (∀ c1 c2 c3 c4, s1 = .ok c1 → s2 = .ok c2 → s3 = .ok c3 → s4 = .ok c4 →
        s5 = .error e →
      (processHighlight theme videoPath workDir s1 s2 s3 s4 s5 s6 dO dH).status = "failed"
      ∧ (processHighlight theme videoPath workDir s1 s2 s3 s4 s5 s6 dO dH).error = some e
      ∧ (processHighlight theme videoPath workDir s1 s2 s3 s4 s5 s6 dO dH).currentStep = 5
      ∧ (processHighlight theme videoPath workDir s1 s2 s3 s4 s5 s6 dO dH).criteria = some c1
      ∧ (processHighlight theme videoPath workDir s1 s2 s3 s4 s5 s6 dO dH).compressedPath = some c2
      ∧ (processHighlight theme videoPath workDir s1 s2 s3 s4 s5 s6 dO dH).analysis = some c3
      ∧ (processHighlight theme videoPath workDir s1 s2 s3 s4 s5 s6 dO dH).clips = some (.raw c4)
      ∧ (processHighlight theme videoPath workDir s1 s2 s3 s4 s5 s6 dO dH).clipsCount = none
      ∧ (processHighlight theme videoPath workDir s1 s2 s3 s4 s5 s6 dO dH).highlightVideoPath = none
      ∧ (processHighlight theme videoPath workDir s1 s2 s3 s4 s5 s6 dO dH).stepMessages 6 = "等待中...")
    ∧ (∀ c1 c2 c3 c4 c5, s1 = .ok c1 → s2 = .ok c2 → s3 = .ok c3 → s4 = .ok c4 →
        s5 = .ok c5 → s6 = .error e →
      (processHighlight theme videoPath workDir s1 s2 s3 s4 s5 s6 dO dH).status = "failed"
      ∧ (processHighlight theme videoPath workDir s1 s2 s3 s4 s5 s6 dO dH).error = some e
      ∧ (processHighlight theme videoPath workDir s1 s2 s3 s4 s5 s6 dO dH).currentStep = 6
      ∧ (processHighlight theme videoPath workDir s1 s2 s3 s4 s5 s6 dO dH).criteria = some c1
      ∧ (processHighlight theme videoPath workDir s1 s2 s3 s4 s5 s6 dO dH).compressedPath = some c2
      ∧ (processHighlight theme videoPath workDir s1 s2 s3 s4 s5 s6 dO dH).analysis = some c3
      ∧ (processHighlight theme videoPath workDir s1 s2 s3 s4 s5 s6 dO dH).clipsCount = some c5.length
      ∧ (processHighlight theme videoPath workDir s1 s2 s3 s4 s5 s6 dO dH).highlightVideoPath = none
      ∧ (processHighlight theme videoPath workDir s1 s2 s3 s4 s5 s6 dO dH).originalDuration = none) := by
  refine ⟨?_, ?_, ?_, ?_, ?_, ?_⟩
  · rintro rfl
    refine ⟨rfl, rfl, rfl, rfl, rfl, rfl, rfl, ?_⟩
    intro k hk2 hk6
    have h1 : ¬ k = 1 := by omega
    simp [processHighlight, initJob, failJob, updMsg, h1]
  · rintro c1 rfl rfl
    refine ⟨rfl, rfl, rfl, rfl, rfl, rfl, rfl, ?_⟩
    intro k hk3 hk6
    have h1 : ¬ k = 1 := by omega
    have h2 : ¬ k = 2 := by omega
    simp [processHighlight, initJob, failJob, updMsg, h1, h2]
  · rintro c1 c2 rfl rfl rfl
    refine ⟨rfl, rfl, rfl, rfl, rfl, rfl, rfl, ?_⟩
    intro k hk4 hk6
    have h1 : ¬ k = 1 := by omega
    have h2 : ¬ k = 2 := by omega
    have h3 : ¬ k = 3 := by omega
    simp [processHighlight, initJob, failJob, updMsg, h1, h2, h3]
  · rintro c1 c2 c3 rfl rfl rfl rfl
    refine ⟨rfl, rfl, rfl, rfl, rfl, rfl, rfl, ?_⟩
    intro k hk5 hk6
    have h1 : ¬ k = 1 := by omega
    have h2 : ¬ k = 2 := by omega
    have h3 : ¬ k = 3 := by omega
    have h4 : ¬ k = 4 := by omega
    simp [processHighlight, initJob, failJob, updMsg, h1, h2, h3, h4]
  · rintro c1 c2 c3 c4 rfl rfl rfl rfl rfl
    refine ⟨rfl, rfl, rfl, rfl, rfl, rfl, rfl, rfl, rfl, ?_⟩
    simp [processHighlight, initJob, failJob, updMsg]
  · rintro c1 c2 c3 c4 c5 rfl rfl rfl rfl rfl rfl
    exact ⟨rfl, rfl, rfl, rfl, rfl, rfl, rfl, rfl, rfl⟩

/-- C7 witness: a concrete job whose stage-3 analysis call throws lands in
failed status at step 3 with the stage-1/2 artifacts retained and all
later stages untouched. -/
theorem processHighlight_failure_witness :
    ((Except.ok "crit" : Except String String) = .ok "crit"
      ∧ (Except.ok "comp" : Except String String) = .ok "comp"
      ∧ (Except.error "boom" : Except String String) = .error "boom")
    ∧ ((processHighlight "t" "v" "w" (.ok "crit") (.ok "comp") (.error "boom")
          (.ok []) (.ok []) (.ok ()) 0 0).status = "failed"
      ∧ (processHighlight "t" "v" "w" (.ok "crit") (.ok "comp") (.error "boom")
          (.ok []) (.ok []) (.ok ()) 0 0).error = some "boom"
      ∧ (processHighlight "t" "v" "w" (.ok "crit") (.ok "comp") (.error "boom")
          (.ok []) (.ok []) (.ok ()) 0 0).currentStep = 3
      ∧ (processHighlight "t" "v" "w" (.ok "crit") (.ok "comp") (.error "boom")
          (.ok []) (.ok []) (.ok ()) 0 0).criteria = some "crit"
      ∧ (processHighlight "t" "v" "w" (.ok "crit") (.ok "comp") (.error "boom")
          (.ok []) (.ok []) (.ok ()) 0 0).compressedPath = some "comp"
      ∧ (processHighlight "t" "v" "w" (.ok "crit") (.ok "comp") (.error "boom")
          (.ok []) (.ok []) (.ok ()) 0 0).analysis = none
      ∧ (processHighlight "t" "v" "w" (.ok "crit") (.ok "comp") (.error "boom")
          (.ok []) (.ok []) (.ok ()) 0 0).clips = none
      ∧ (processHighlight "t" "v" "w" (.ok "crit") (.ok "comp") (.error "boom")
          (.ok []) (.ok []) (.ok ()) 0 0).stepMessages 4 = "等待中..."
      ∧ (processHighlight "t" "v" "w" (.ok "crit") (.ok "comp") (.error "boom")
          (.ok []) (.ok []) (.ok ()) 0 0).stepMessages 5 = "等待中..."
      ∧ (processHighlight "t" "v" "w" (.ok "crit") (.ok "comp") (.error "boom")
          (.ok []) (.ok []) (.ok ()) 0 0).stepMessages 6 = "等待中...") := by
  have h := (processHighlight_failure "t" "v" "w" (.ok "crit") (.ok "comp")
    (.error "boom") (.ok []) (.ok []) (.ok ()) 0 0 "boom").2.2.1 "crit" "comp"
    rfl rfl rfl
  exact ⟨⟨rfl, rfl, rfl⟩, h.1, h.2.1, h.2.2.1, h.2.2.2.1, h.2.2.2.2.1,
    h.2.2.2.2.2.1, h.2.2.2.2.2.2.1,
    h.2.2.2.2.2.2.2 4 (by omega) (by omega),
    h.2.2.2.2.2.2.2 5 (by omega) (by omega),
    h.2.2.2.2.2.2.2 6 (by omega) (by omega)⟩

theorem mem_insK {α : Type} (keep : α → α → Prop) [DecidableRel keep]
    (r b : α) (l : List α) : b ∈ insK keep r l ↔ b = r ∨ b ∈ l := by
  induction l with
  | nil => simp [insK]
  | cons a rest ih =>
    by_cases hk : keep a r
    · simp only [insK, if_pos hk, List.mem_cons, ih]
      tauto
    · simp only [insK, if_neg hk, List.mem_cons]

theorem insK_perm {α : Type} (keep : α → α → Prop) [DecidableRel keep]
    (r : α) (l : List α) : List.Perm (insK keep r l) (r :: l) := by
  induction l with
  | nil => exact List.Perm.refl _
  | cons a rest ih =>
    by_cases hk : keep a r
    · simp only [insK, if_pos hk]
      exact (ih.cons a).trans (List.Perm.swap r a rest)
    · simp [insK, hk]

theorem sortK_perm_aux {α : Type} (keep : α → α → Prop) [DecidableRel keep]
    (l acc : List α) :
    List.Perm (List.foldl (fun acc r => insK keep r acc) acc l) (acc ++ l) := by
  induction l generalizing acc with
  | nil => simp
  | cons r rs ih =>
    have h1 := ih (insK keep r acc)
    have h2 : List.Perm (insK keep r acc ++ rs) ((r :: acc) ++ rs) :=
      (insK_perm keep r acc).append_right rs
    have h3 : List.Perm ((r :: acc) ++ rs) (acc ++ r :: rs) :=
      List.perm_middle.symm
    exact h1.trans (h2.trans h3)

theorem sortK_perm {α : Type} (keep : α → α → Prop) [DecidableRel keep]
    (l : List α) : List.Perm (sortK keep l) l := by
  simpa using sortK_perm_aux keep l []

theorem pairwise_insK {α : Type} (keep : α → α → Prop) [DecidableRel keep]
    (R Q : α → α → Prop)
    (hKR : ∀ a r, Q a r → keep a r → R a r)
    (hNK : ∀ a r, ¬ keep a r → R r a)
    (hTr : ∀ a b r, ¬ keep a r → R a b → R r b)
    (r : α) (acc : List α) (hacc : acc.Pairwise R)
    (hQ : ∀ a ∈ acc, Q a r) : (insK keep r acc).Pairwise R := by
  induction acc with
  | nil => simp [insK]
  | cons a rest ih =>
    rcases List.pairwise_cons.mp hacc with ⟨ha, hrest⟩
    by_cases hk : keep a r
    · simp only [insK, if_pos hk, List.pairwise_cons]
      refine ⟨?_, ih hrest (fun x hx => hQ x (List.mem_cons_of_mem a hx))⟩
      intro b hb
      rcases (mem_insK keep r b rest).mp hb with hb | hb
      · subst hb
        exact hKR a b (hQ a (List.mem_cons_self a rest)) hk
      · exact ha b hb
    · simp only [insK, if_neg hk, List.pairwise_cons]
      refine ⟨?_, ha, hrest⟩
      intro b hb
      rcases List.mem_cons.mp hb with hb | hb
      · subst hb
        exact hNK b r hk
      · exact hTr a b r hk (ha b hb)

theorem pairwise_sortK {α : Type} (keep : α → α → Prop) [DecidableRel keep]
    (R Q : α → α → Prop)
    (hKR : ∀ a r, Q a r → keep a r → R a r)
    (hNK : ∀ a r, ¬ keep a r → R r a)
    (hTr : ∀ a b r, ¬ keep a r → R a b → R r b)
    (l : List α) (hl : l.Pairwise Q) : (sortK keep l).Pairwise R := by
  suffices h : ∀ acc, acc.Pairwise R → (∀ a ∈ acc, ∀ x ∈ l, Q a x) →
      (List.foldl (fun acc r => insK keep r acc) acc l).Pairwise R by
    exact h [] (by simp) (by simp)
  induction l with
  | nil => exact fun acc ha _ => ha
  | cons r rs ih =>
    intro acc hacc hQacc
    rcases List.pairwise_cons.mp hl with ⟨hr, hrs⟩
    refine ih hrs (insK keep r acc) ?_ ?_
    · exact pairwise_insK keep R Q hKR hNK hTr r acc hacc
        (fun a ha => hQacc a ha r (List.mem_cons_self r rs))
    · intro a ha x hx
      rcases (mem_insK keep r a acc).mp ha with ha | ha
      · subst ha
        exact hr x hx
      · exact hQacc a ha x (List.mem_cons_of_mem r hx)

theorem pairwise_true {α : Type} (l : List α) :
    l.Pairwise (fun _ _ => True) := by
  induction l with
  | nil => exact List.Pairwise.nil
  | cons a rest ih => exact List.pairwise_cons.mpr ⟨fun _ _ => trivial, ih⟩

theorem mem_enumFrom_le {α : Type} (l : List α) (n : ℕ) (p : ℕ × α)
    (hp : p ∈ List.enumFrom n l) : n ≤ p.1 := by
  induction l generalizing n with
  | nil => simp [List.enumFrom] at hp
  | cons x xs ih =>
    simp only [List.enumFrom, List.mem_cons] at hp
    rcases hp with hp | hp
    · subst hp
      exact le_refl n
    · exact (Nat.le_succ n).trans (ih (n + 1) hp)

theorem pairwise_enumFrom {α : Type} (l : List α) (n : ℕ) :
    (List.enumFrom n l).Pairwise (fun p q => p.1 < q.1) := by
  induction l generalizing n with
  | nil => exact List.Pairwise.nil
  | cons x xs ih =>
    refine List.pairwise_cons.mpr ⟨?_, ih (n + 1)⟩
    intro q hq
    exact Nat.lt_of_succ_le (mem_enumFrom_le xs (n + 1) q hq)

theorem scoreShard_pairwise_pos (q : List ℚ) (vectors : Shard)
    (meta : List (String × MetaD)) :
    (scoreShard q vectors meta).Pairwise (fun a b => a.pos < b.pos) := by
  unfold scoreShard
  refine List.pairwise_map.mpr ?_
  exact pairwise_enumFrom vectors 0

theorem sumSq_nonneg (v : List ℚ) : 0 ≤ sumSq v := by
  induction v with
  | nil => simp [sumSq, dotQ]
  | cons x xs ih =>
    simp only [sumSq, dotQ] at *
    nlinarith [mul_self_nonneg x]

theorem dotQ_sq_le (a b : List ℚ) : (dotQ a b) ^ 2 ≤ sumSq a * sumSq b := by
  induction a generalizing b with
  | nil =>
    cases b <;> simp [dotQ, sumSq]
  | cons x xs ih =>
    cases b with
    | nil => simp [dotQ, sumSq]
    | cons y ys =>
      have h1 := sumSq_nonneg xs
      have h2 := sumSq_nonneg ys
      have h3 := ih ys
      simp only [sumSq, dotQ] at *
      have hu1 : 0 ≤ x * x * dotQ ys ys := mul_nonneg (mul_self_nonneg x) h2
      have hu2 : 0 ≤ y * y * dotQ xs xs := mul_nonneg (mul_self_nonneg y) h1
      have hw : 0 ≤ dotQ xs xs * dotQ ys ys - dotQ xs ys ^ 2 :=
        sub_nonneg.mpr h3
      rcases le_or_lt (2 * (x * y) * dotQ xs ys) 0 with hc | hc
      · nlinarith [hu1, hu2, hw, hc]
      · nlinarith [sq_nonneg (x * x * dotQ ys ys - y * y * dotQ xs xs),
          mul_nonneg (sq_nonneg (x * y)) hw, hu1, hu2, hw, hc,
          mul_nonneg (add_nonneg hu1 hu2) hw]

theorem nrm_nonneg (v : List ℚ) : 0 ≤ nrm v := Real.sqrt_nonneg _

theorem abs_cosineSimDS_le_one (a b : List ℚ) : |cosineSimDS a b| ≤ 1 := by
  rw [cosineSimDS]
  split_ifs with h
  · simp
  · push_neg at h
    have ha : 0 < nrm a := lt_of_le_of_ne (nrm_nonneg a) (Ne.symm h.1)
    have hb : 0 < nrm b := lt_of_le_of_ne (nrm_nonneg b) (Ne.symm h.2)
    have hs1 : (0:ℝ) ≤ ((sumSq a : ℚ) : ℝ) := by
      exact_mod_cast sumSq_nonneg a
    have habs : |((dotQ a b : ℚ) : ℝ)| ≤ nrm a * nrm b := by
      have hsq : ((dotQ a b : ℚ) : ℝ) ^ 2
          ≤ ((sumSq a : ℚ) : ℝ) * ((sumSq b : ℚ) : ℝ) := by
        exact_mod_cast dotQ_sq_le a b
      calc |((dotQ a b : ℚ) : ℝ)|
          = Real.sqrt (((dotQ a b : ℚ) : ℝ) ^ 2) := (Real.sqrt_sq_eq_abs _).symm
        _ ≤ Real.sqrt (((sumSq a : ℚ) : ℝ) * ((sumSq b : ℚ) : ℝ)) :=
            Real.sqrt_le_sqrt hsq
        _ = nrm a * nrm b := by rw [nrm, nrm, ← Real.sqrt_mul hs1]
    have hpos : 0 < nrm a * nrm b := mul_pos ha hb
    rw [abs_div, abs_of_pos hpos]
    exact (div_le_one hpos).mpr habs

theorem sortScoredDesc_pairwise (l : List Scored)
    (hl : l.Pairwise (fun a b => a.pos < b.pos)) :
    (sortScoredDesc l).Pairwise
      (fun a b => b.similarity < a.similarity
        ∨ (a.similarity = b.similarity ∧ a.pos < b.pos)) := by
  unfold sortScoredDesc
  refine pairwise_sortK _ _ (fun a b => a.pos < b.pos) ?_ ?_ ?_ l hl
  · intro a r hQ hk
    rcases lt_or_eq_of_le hk with hlt | heq
    · exact Or.inl hlt
    · exact Or.inr ⟨heq.symm, hQ⟩
  · intro a r hk
    exact Or.inl (lt_of_not_le hk)
  · intro a b r hk hab
    rcases hab with hlt | heq
    · exact Or.inl (hlt.trans (lt_of_not_le hk))
    · exact Or.inl (heq.1 ▸ lt_of_not_le hk)

theorem takeSorted_spec (q : List ℚ) (vecs : Shard)
    (meta : List (String × MetaD)) (k : ℕ) :
    ((sortScoredDesc (scoreShard q vecs meta)).take k).length ≤ k
    ∧ ((sortScoredDesc (scoreShard q vecs meta)).take k).Pairwise
        (fun a b => b.similarity < a.similarity
          ∨ (a.similarity = b.similarity ∧ a.pos < b.pos))
    ∧ ∀ x ∈ (sortScoredDesc (scoreShard q vecs meta)).take k,
        |x.similarity| ≤ 1 := by
  refine ⟨List.length_take_le _ _, ?_, ?_⟩
  · exact (sortScoredDesc_pairwise _ (scoreShard_pairwise_pos q vecs meta)).sublist
      (List.take_sublist _ _)
  · intro x hx
    have hx1 := List.mem_of_mem_take hx
    have hx2 := ((sortK_perm _ _).mem_iff).mp hx1
    simp only [scoreShard, List.mem_map] at hx2
    obtain ⟨p, _, hpx⟩ := hx2
    rw [← hpx]
    exact abs_cosineSimDS_le_one q p.2.2

/-- C8: for a query of a supported dimension, `search` returns at most
`top_k` results, ordered by non-increasing similarity with ties broken by
insertion order (the stricter pairwise statement: a later result has
strictly smaller similarity or an equal similarity and a larger shard
position), and every returned similarity is a well-defined real number in
`[-1, 1]` — the counterpart, in this real-number model, of the source
discarding NaN and infinite similarities. -/
theorem search_spec (st : Store) (q : List ℚ) (k : ℕ)
    (h : q.length ∈ supportedDims) (r : List Scored)
    (hr : search st q k none = .ok r) :
    r.length ≤ k
    ∧ r.Pairwise (fun a b => b.similarity < a.similarity
        ∨ (a.similarity = b.similarity ∧ a.pos < b.pos))
    ∧ ∀ x ∈ r, |x.similarity| ≤ 1 := by
  simp only [search, shardSearch, if_pos h] at hr
  split_ifs at hr <;> simp only [Except.ok.injEq] at hr <;> subst hr <;>
    first
      | exact ⟨by simp, by simp, by simp⟩
      | exact takeSorted_spec _ _ _ _

/-- C8 witness: the theorem at a concrete supported-dimension query
against a fresh store. -/
theorem search_spec_witness :
    ((List.replicate 256 (1:ℚ)).length ∈ supportedDims
      ∧ search (mkStore []) (List.replicate 256 (1:ℚ)) 5 none = .ok [])
    ∧ (([] : List Scored).length ≤ 5
      ∧ ([] : List Scored).Pairwise (fun a b => b.similarity < a.similarity
          ∨ (a.similarity = b.similarity ∧ a.pos < b.pos))
      ∧ ∀ x ∈ ([] : List Scored), |x.similarity| ≤ 1) := by
  have hs : search (mkStore []) (List.replicate 256 (1:ℚ)) 5 none = .ok [] := rfl
  exact ⟨⟨by decide, hs⟩,
    search_spec (mkStore []) (List.replicate 256 (1:ℚ)) 5 (by decide) [] hs⟩

/-- Two selected clips are temporally spaced when their start offsets
differ by at least the 3-second overlap window. -/
def spacedSel (a b : SelClip) : Prop :=
  3 ≤ |a.clip.timestamp - b.clip.timestamp|

theorem spacedSel_symm : Symmetric spacedSel := by
  intro a b h
  rw [spacedSel, abs_sub_comm]
  exact h

theorem sortSelByTime_pairwise (l : List SelClip) :
    (sortSelByTime l).Pairwise
      (fun a b => a.clip.timestamp ≤ b.clip.timestamp) := by
  unfold sortSelByTime
  refine pairwise_sortK _ _ (fun _ _ => True) ?_ ?_ ?_ l (pairwise_true l)
  · exact fun a r _ hk => hk
  · exact fun a r hk => le_of_not_le hk
  · exact fun a b r hk hab => (le_of_not_le hk).trans hab

theorem sortSelByTime_perm (l : List SelClip) :
    List.Perm (sortSelByTime l) l := sortK_perm _ l

theorem dedupByIndex_sublist (l : List SelClip) :
    ∀ seen, List.Sublist (dedupByIndex l seen) l := by
  induction l with
  | nil => intro seen; simp [dedupByIndex]
  | cons c cs ih =>
    intro seen
    by_cases hc : c.clip.index ∈ seen
    · simp only [dedupByIndex, if_pos hc]
      exact (ih seen).trans (List.sublist_cons_self c cs)
    · simp only [dedupByIndex, if_neg hc]
      exact (ih (c.clip.index :: seen)).cons₂ c

theorem dedupByIndex_spec (l : List SelClip) :
    ∀ seen, (∀ c ∈ dedupByIndex l seen, c.clip.index ∉ seen)
      ∧ ((dedupByIndex l seen).map (fun c => c.clip.index)).Nodup := by
  induction l with
  | nil => intro seen; simp [dedupByIndex]
  | cons c cs ih =>
    intro seen
    by_cases hc : c.clip.index ∈ seen
    · simp only [dedupByIndex, if_pos hc]
      exact ih seen
    · simp only [dedupByIndex, if_neg hc, List.map_cons, List.nodup_cons]
      obtain ⟨ihm, ihn⟩ := ih (c.clip.index :: seen)
      refine ⟨?_, ?_, ihn⟩
      · intro d hd
        rcases List.mem_cons.mp hd with hd | hd
        · subst hd; exact hc
        · exact fun hds => (ihm d hd) (List.mem_cons_of_mem _ hds)
      · intro hmem
        rcases List.mem_map.mp hmem with ⟨d, hd, hde⟩
        exact (ihm d hd) (hde ▸ List.mem_cons_self _ _)

theorem removeFirstSel_sublist (x : SelClip) (l : List SelClip) :
    List.Sublist (removeFirstSel x l) l := by
  induction l with
  | nil => simp [removeFirstSel]
  | cons y ys ih =>
    by_cases hy : y = x
    · simp only [removeFirstSel, if_pos hy]
      exact List.sublist_cons_self y ys
    · simp only [removeFirstSel, if_neg hy]
      exact ih.cons₂ y

theorem not_mem_removeFirstSel_self (x : SelClip) (l : List SelClip)
    (hl : l.Nodup) : x ∉ removeFirstSel x l := by
  induction l with
  | nil => simp [removeFirstSel]
  | cons y ys ih =>
    rcases List.nodup_cons.mp hl with ⟨hy, hys⟩
    by_cases hyx : y = x
    · simp only [removeFirstSel, if_pos hyx]
      exact hyx ▸ hy
    · simp only [removeFirstSel, if_neg hyx]
      intro hmem
      rcases List.mem_cons.mp hmem with h | h
      · exact hyx h.symm
      · exact ih hys h

theorem mem_overlapStep (filtered : List SelClip) (c x : SelClip)
    (hx : x ∈ overlapStep filtered c) : x ∈ filtered ∨ x = c := by
  rw [overlapStep] at hx
  rcases hfind : findOverlap filtered c with _ | s <;> rw [hfind] at hx <;>
    dsimp only at hx
  · rcases List.mem_append.mp hx with h | h
    · exact Or.inl h
    · exact Or.inr (List.mem_singleton.mp h)
  · split_ifs at hx
    · rcases List.mem_append.mp hx with h | h
      · exact Or.inl ((removeFirstSel_sublist s filtered).mem h)
      · exact Or.inr (List.mem_singleton.mp h)
    · exact Or.inl hx

theorem materialize_ts (c : SelClip) :
    (materialize c).clip.timestamp = c.clip.timestamp := by
  rw [materialize]
  split_ifs <;> rfl

theorem materialize_idx (c : SelClip) :
    (materialize c).clip.index = c.clip.index := by
  rw [materialize]
  split_ifs <;> rfl

theorem overlapStep_spec (filtered : List SelClip) (c : SelClip)
    (h1 : filtered.Pairwise spacedSel)
    (h2 : (filtered.map (fun x => x.clip.index)).Nodup)
    (h3 : ∀ x ∈ filtered, x.clip.timestamp ≤ c.clip.timestamp)
    (h4 : ∀ x ∈ filtered, x.clip.index ≠ c.clip.index) :
    (overlapStep filtered c).Pairwise spacedSel
    ∧ ((overlapStep filtered c).map (fun x => x.clip.index)).Nodup := by
  rw [overlapStep]
  rcases hfind : findOverlap filtered c with _ | s <;> dsimp only
  · have hall : ∀ x ∈ filtered,
        ¬ (|c.clip.timestamp - x.clip.timestamp| < 3) := by
      intro x hx
      rw [findOverlap] at hfind
      have := List.find?_eq_none.mp hfind x hx
      simpa using this
    constructor
    · rw [List.pairwise_append]
      refine ⟨h1, List.pairwise_singleton _ _, ?_⟩
      intro x hx y hy
      rw [List.mem_singleton] at hy
      rw [hy, spacedSel, abs_sub_comm]
      exact not_lt.mp (hall x hx)
    · rw [List.map_append]
      refine List.Nodup.append h2 (List.nodup_singleton _) ?_
      intro a ha hb
      rw [List.map_singleton, List.mem_singleton] at hb
      rcases List.mem_map.mp ha with ⟨x, hx, hxe⟩
      refine h4 x hx ?_
      rw [hxe]
      exact hb
  · have hs_mem : s ∈ filtered := by
      rw [findOverlap] at hfind
      exact List.mem_of_find?_eq_some hfind
    have hs_lt : |c.clip.timestamp - s.clip.timestamp| < 3 := by
      rw [findOverlap] at hfind
      have := List.find?_some hfind
      simpa using this
    split_ifs with hsim
    · have hnd : filtered.Nodup := h2.of_map
      constructor
      · rw [List.pairwise_append]
        refine ⟨h1.sublist (removeFirstSel_sublist s filtered),
          List.pairwise_singleton _ _, ?_⟩
        intro x hx y hy
        rw [List.mem_singleton] at hy
        rw [hy]
        have hxf : x ∈ filtered := (removeFirstSel_sublist s filtered).mem hx
        by_cases hover : |c.clip.timestamp - x.clip.timestamp| < 3
        · exfalso
          by_cases hxs : x = s
          · exact not_mem_removeFirstSel_self s filtered hnd (hxs ▸ hx)
          · have hspace : spacedSel x s :=
              h1.forall spacedSel_symm hxf hs_mem hxs
            rw [spacedSel] at hspace
            have hc1 := abs_lt.mp hover
            have hc2 := abs_lt.mp hs_lt
            have hx_le := h3 x hxf
            have hs_le := h3 s hs_mem
            rcases le_abs.mp hspace with h | h
            · linarith [hc1.1, hc1.2, hc2.1, hc2.2]
            · linarith [hc1.1, hc1.2, hc2.1, hc2.2]
        · rw [spacedSel, abs_sub_comm]
          exact not_lt.mp hover
      · have hsub : List.Sublist
            ((removeFirstSel s filtered).map (fun x => x.clip.index))
            (filtered.map fun x => x.clip.index) :=
          (removeFirstSel_sublist s filtered).map _
        rw [List.map_append]
        refine List.Nodup.append (h2.sublist hsub) (List.nodup_singleton _) ?_
        intro a ha hb
        rw [List.map_singleton, List.mem_singleton] at hb
        rcases List.mem_map.mp ha with ⟨x, hx, hxe⟩
        refine h4 x ((removeFirstSel_sublist s filtered).mem hx) ?_
        rw [hxe]
        exact hb
    · exact ⟨h1, h2⟩

theorem resolveFold_spec (rest : List SelClip) :
    ∀ (filtered : List SelClip),
    filtered.Pairwise spacedSel →
    (filtered.map (fun x => x.clip.index)).Nodup →
    (∀ x ∈ filtered, ∀ y ∈ rest, x.clip.timestamp ≤ y.clip.timestamp) →
    (∀ x ∈ filtered, ∀ y ∈ rest, x.clip.index ≠ y.clip.index) →
    rest.Pairwise (fun a b => a.clip.timestamp ≤ b.clip.timestamp) →
    (rest.map (fun x => x.clip.index)).Nodup →
    (List.foldl overlapStep filtered rest).Pairwise spacedSel
    ∧ ((List.foldl overlapStep filtered rest).map
        (fun x => x.clip.index)).Nodup := by
  induction rest with
  | nil =>
    intro filtered p1 p2 _ _ _ _
    exact ⟨p1, p2⟩
  | cons c cs ih =>
    intro filtered p1 p2 p3 p4 p5 p6
    simp only [List.foldl_cons]
    have hc_t : ∀ x ∈ filtered, x.clip.timestamp ≤ c.clip.timestamp :=
      fun x hx => p3 x hx c (List.mem_cons_self c cs)
    have hc_i : ∀ x ∈ filtered, x.clip.index ≠ c.clip.index :=
      fun x hx => p4 x hx c (List.mem_cons_self c cs)
    obtain ⟨n1, n2⟩ := overlapStep_spec filtered c p1 p2 hc_t hc_i
    rcases List.pairwise_cons.mp p5 with ⟨hc_rest, p5h⟩
    rw [List.map_cons] at p6
    rcases List.nodup_cons.mp p6 with ⟨hc_idx, p6h⟩
    refine ih (overlapStep filtered c) n1 n2 ?_ ?_ p5h p6h
    · intro x hx y hy
      rcases mem_overlapStep filtered c x hx with hxf | hxc
      · exact p3 x hxf y (List.mem_cons_of_mem c hy)
      · subst hxc
        exact hc_rest y hy
    · intro x hx y hy
      rcases mem_overlapStep filtered c x hx with hxf | hxc
      · exact p4 x hxf y (List.mem_cons_of_mem c hy)
      · subst hxc
        intro he
        exact hc_idx (List.mem_map.mpr ⟨y, hy, he.symm⟩)

/-- C1: every successful run of `match_clips` returns a selection sorted by
ascending start offset, with no segment index twice, and with no two
segments whose start offsets differ by less than the 3-second overlap
window; and during the overlap scan, whenever the newly considered clip is
within the window of an already-accepted clip, the one with the strictly
higher similarity is the one kept and the other is discarded. -/
theorem matchClips_selection_spec
    (getEmb : String → Except String (List ℚ)) (analysis : String)
    (clips : List Clip) (threshold : ℝ) (topK : ℕ) (r : List SelClip)
    (hr : matchClips getEmb analysis clips threshold topK = .ok r) :
    r.Pairwise (fun a b => a.clip.timestamp ≤ b.clip.timestamp)
    ∧ (r.map (fun c => c.clip.index)).Nodup
    ∧ r.Pairwise spacedSel
    ∧ (∀ filtered c s, filtered.Pairwise spacedSel →
        (filtered.map (fun x => x.clip.index)).Nodup → c ∉ filtered →
        findOverlap filtered c = some s →
        ((s.similarity < c.similarity →
            c ∈ overlapStep filtered c ∧ s ∉ overlapStep filtered c)
          ∧ (c.similarity < s.similarity →
            s ∈ overlapStep filtered c ∧ c ∉ overlapStep filtered c))) := by
  simp only [matchClips] at hr
  rcases hcol : collectPoints getEmb (clips.filter fun c => c.embedding.isSome)
      threshold topK (parsePoints analysis) with e | selected <;>
    rw [hcol] at hr <;> dsimp only at hr
  · exact absurd hr (by simp)
  simp only [Except.ok.injEq] at hr
  subst hr
  have hu_t : (dedupByIndex (sortSelByTime selected) []).Pairwise
      (fun a b => a.clip.timestamp ≤ b.clip.timestamp) :=
    (sortSelByTime_pairwise selected).sublist
      (dedupByIndex_sublist (sortSelByTime selected) [])
  have hu_i : ((dedupByIndex (sortSelByTime selected) []).map
      (fun c => c.clip.index)).Nodup :=
    (dedupByIndex_spec (sortSelByTime selected) []).2
  have hfold := resolveFold_spec (dedupByIndex (sortSelByTime selected) []) []
    (by simp) (by simp) (by simp) (by simp) hu_t hu_i
  rw [show resolveOverlaps (dedupByIndex (sortSelByTime selected) [])
    = List.foldl overlapStep [] (dedupByIndex (sortSelByTime selected) [])
    from rfl]
  refine ⟨?_, ?_, ?_, ?_⟩
  · refine List.pairwise_map.mpr ?_
    refine (sortSelByTime_pairwise _).imp ?_
    intro a b h
    rw [materialize_ts, materialize_ts]
    exact h
  · rw [List.map_map]
    have hfun : ((fun c : SelClip => c.clip.index) ∘ materialize)
        = fun c : SelClip => c.clip.index := funext fun c => materialize_idx c
    rw [hfun]
    exact (((sortSelByTime_perm _).map (fun c => c.clip.index)).nodup_iff).mpr
      hfold.2
  · refine List.pairwise_map.mpr ?_
    have hsp : (sortSelByTime (List.foldl overlapStep []
        (dedupByIndex (sortSelByTime selected) []))).Pairwise spacedSel :=
      (List.Perm.pairwise_iff (fun h => spacedSel_symm h) (sortSelByTime_perm _)).mpr hfold.1
    refine hsp.imp ?_
    intro a b h
    rw [spacedSel, materialize_ts, materialize_ts]
    exact h
  · intro filtered c s hp hni hcf hfind
    have hs_mem : s ∈ filtered := by
      rw [findOverlap] at hfind
      exact List.mem_of_find?_eq_some hfind
    have hnd : filtered.Nodup := hni.of_map
    constructor
    · intro hsim
      rw [overlapStep, hfind]
      dsimp only
      rw [if_pos hsim]
      refine ⟨List.mem_append_right _ (List.mem_singleton_self c), ?_⟩
      intro hmem
      rcases List.mem_append.mp hmem with h | h
      · exact not_mem_removeFirstSel_self s filtered hnd h
      · rw [List.mem_singleton] at h
        rw [h] at hsim
        exact lt_irrefl _ hsim
    · intro hsim
      have hns : ¬ s.similarity < c.similarity := fun h => lt_irrefl _ (h.trans hsim)
      rw [overlapStep, hfind]
      dsimp only
      rw [if_neg hns]
      exact ⟨hs_mem, hcf⟩

/-- C1 witness: the theorem at a concrete run (two parsed points, no
embedded candidates) whose selection is empty. -/
theorem matchClips_selection_spec_witness :
    matchClips (fun _ => .ok [1]) "B. b\nA. a" [] (1/10 : ℝ) 3 = .ok []
    ∧ (([] : List SelClip).Pairwise
        (fun a b => a.clip.timestamp ≤ b.clip.timestamp)
      ∧ (([] : List SelClip).map (fun c => c.clip.index)).Nodup
      ∧ ([] : List SelClip).Pairwise spacedSel) := by
  have hp : parsePoints "B. b\nA. a" = ["B. b", "A. a"] := by decide
  have hs : matchClips (fun _ => .ok [1]) "B. b\nA. a" [] (1/10 : ℝ) 3
      = .ok [] := by
    simp only [matchClips, hp, collectPoints, perPoint]
    rfl
  have h := matchClips_selection_spec (fun _ => .ok [1]) "B. b\nA. a" []
    (1/10) 3 [] hs
  exact ⟨hs, h.1, h.2.1, h.2.2.1⟩
